import Mathlib

set_option maxHeartbeats 1000000

namespace Pidfile

/-- Decimal digit character for a value below ten, as Python renders one
digit of an integer. -/
def digitChar : Nat → Char
  | 0 => '0'
  | 1 => '1'
  | 2 => '2'
  | 3 => '3'
  | 4 => '4'
  | 5 => '5'
  | 6 => '6'
  | 7 => '7'
  | 8 => '8'
  | _ => '9'

/-- Numeric value of a most-significant-first list of digit characters,
as computed by the Python int constructor on a digit string. -/
def digitsToNat (cs : List Char) : Nat :=
  cs.foldl (fun a c => a * 10 + (c.toNat - 48)) 0

/-- Digit expansion with explicit fuel so the recursion is structural;
fuel at least the value itself is always enough. -/
def natDigitsAux : Nat → Nat → List Char
  | 0, _ => []
  | fuel + 1, n =>
    if n = 0 then []
    else natDigitsAux fuel (n / 10) ++ [digitChar (n % 10)]

/-- Decimal digit characters of a natural number, most significant digit
first, matching the Python str rendering of a nonnegative integer. -/
def natDigits (n : Nat) : List Char :=
  if n = 0 then ['0'] else natDigitsAux n n

/-- String form of a natural number, as the Python format calls render
nonnegative integers such as uids. -/
def natRepr (n : Nat) : String := ⟨natDigits n⟩

/-- Character rendering of an integer, as the Python str call inside the
format expression of write_pid_list produces. -/
def intChars (i : Int) : List Char :=
  if i < 0 then '-' :: natDigits i.natAbs else natDigits i.natAbs

/-- String rendering of an integer pid. -/
def intRepr (i : Int) : String := ⟨intChars i⟩

/-- Whitespace stripping from both ends of a character list, modelling
the whitespace tolerance of the Python int constructor. -/
def stripWs (cs : List Char) : List Char :=
  ((cs.dropWhile Char.isWhitespace).reverse.dropWhile Char.isWhitespace).reverse

/-- Parse a nonempty all-digit character list into its numeric value; any
other list is rejected. -/
def parseDigits? (cs : List Char) : Option Nat :=
  if cs.isEmpty then none
  else if cs.all Char.isDigit then some (digitsToNat cs) else none

/-- Sign and digit parsing of an already stripped character list: an
optional single sign followed by one or more decimal digits. -/
def pyIntCore (t : List Char) : Option Int :=
  match t with
  | [] => none
  | c :: rest =>
    if c = '-' then
      match parseDigits? rest with
      | none => none
      | some n => some (-(n : Int))
    else if c = '+' then
      match parseDigits? rest with
      | none => none
      | some n => some ((n : Int))
    else
      match parseDigits? (c :: rest) with
      | none => none
      | some n => some ((n : Int))

/-- Model of the Python int constructor applied to one line of the pid
file: optional surrounding whitespace, an optional sign, then one or more
decimal digits; anything else raises ValueError, modelled as none. -/
def pyInt? (s : String) : Option Int :=
  pyIntCore (stripWs s.toList)

/-- State of the backing pid file: none when the file does not exist, and
some lines when it exists with the given lines, each line stored without
its terminating newline (the writer always terminates every entry). -/
structure FsState where
  file : Option (List String)
deriving DecidableEq

/-- Errors raised by the pid file operations, one constructor per raise
site of the source: the int ValueError inside get_pid_list, the duplicate
ValueError inside add, the ValueError of the list remove call, and the
BlockingIOError escaping the lock retry loop. -/
inductive PidErr where
  | parseError
  | duplicateRegistration
  | notFound
  | lockTimeout
deriving DecidableEq

/-- Parse every line of the file in order; the first line that fails to
parse aborts the whole read, as the int call inside get_pid_list raises
before anything is returned. -/
def parseAll : List String → Option (List Int)
  | [] => some []
  | l :: ls =>
    match pyInt? l with
    | none => none
    | some i =>
      match parseAll ls with
      | none => none
      | some is => some (i :: is)

/-- Translation of the private get_pid_list method: a missing file reads
as the empty list, otherwise each line is parsed as a decimal integer. -/
def getPidList (st : FsState) : Option (List Int) :=
  match st.file with
  | none => some []
  | some lines => parseAll lines

/-- Translation of the private write_pid_list method: opens the file for
writing, creating it when absent and truncating it otherwise, then writes
one decimal integer per line. -/
def writePidList (_st : FsState) (pids : List Int) : FsState :=
  ⟨some (pids.map intRepr)⟩

/-- Translation of the add method body: read the list, raise the
duplicate ValueError when the calling pid is already present, otherwise
append it, persist, and return the pid. The returned state is the file
after the call; on an error the write is never reached. -/
def add (currentPid : Int) (st : FsState) : Except PidErr Int × FsState :=
  match getPidList st with
  | none => (.error .parseError, st)
  | some pids =>
    if currentPid ∈ pids then (.error .duplicateRegistration, st)
    else (.ok currentPid, writePidList st (pids ++ [currentPid]))

/-- Translation of the remove method body: the list remove call deletes
the first occurrence of the calling pid and raises ValueError when it is
absent, in which case the write is never reached. -/
def remove (currentPid : Int) (st : FsState) : Except PidErr Unit × FsState :=
  match getPidList st with
  | none => (.error .parseError, st)
  | some pids =>
    if currentPid ∈ pids then (.ok (), writePidList st (pids.erase currentPid))
    else (.error .notFound, st)

/-- Translation of the last method body: none on an empty list, else the
final element; the state is never written. -/
def last (st : FsState) : Except PidErr (Option Int) × FsState :=
  match getPidList st with
  | none => (.error .parseError, st)
  | some pids => (.ok pids.getLast?, st)

/-- Abstraction of the process table read through the proc filesystem:
whether the pid directory exists, the first line of the comm file exactly
as readline returns it, and the lines of the status file. -/
structure ProcEnv where
  procExists : Int → Bool
  comm : Int → String
  statusLines : Int → List String

/-- Consume one or more whitespace characters, as the greedy whitespace
groups of the uid pattern do. -/
def skipWs1 : List Char → Option (List Char)
  | [] => none
  | c :: rest =>
    if c.isWhitespace then some (rest.dropWhile Char.isWhitespace) else none

/-- Consume one or more decimal digits and return their value, as the
digit groups of the uid pattern do. -/
def takeDigits1 (cs : List Char) : Option (Nat × List Char) :=
  let ds := cs.takeWhile Char.isDigit
  if ds.isEmpty then none
  else some (digitsToNat ds, cs.dropWhile Char.isDigit)

/-- Attempt to match the uid pattern at the head of the character list:
the literal Uid label, then four whitespace separated digit runs; the
first run is the real uid and is returned. -/
def matchUidAt (cs : List Char) : Option Nat :=
  match cs with
  | 'U' :: 'i' :: 'd' :: ':' :: rest => do
    let r1 ← skipWs1 rest
    let (u, r2) ← takeDigits1 r1
    let r3 ← skipWs1 r2
    let (_, r4) ← takeDigits1 r3
    let r5 ← skipWs1 r4
    let (_, r6) ← takeDigits1 r5
    let r7 ← skipWs1 r6
    let _ ← takeDigits1 r7
    pure u
  | _ => none

/-- Scan for a match of the uid pattern starting anywhere in the line, as
the regex search call does. -/
def searchUid : List Char → Option Nat
  | [] => none
  | c :: rest =>
    match matchUidAt (c :: rest) with
    | some u => some u
    | none => searchUid rest

/-- Reading line i of the status file, where reads past the end return
the empty string exactly as readline does at end of file. -/
def readlineAt (lines : List String) (i : Nat) : String := lines.getD i ""

/-- Fuel-indexed unfolding of the while loop inside process_real_uid: one
iteration reads the next line and stops only when the uid pattern
matches. A none result means the loop has not terminated within the
given number of iterations. -/
def uidLoop (lines : List String) : Nat → Nat → Option Nat
  | _, 0 => none
  | i, fuel + 1 =>
    match searchUid (readlineAt lines i).toList with
    | some u => some u
    | none => uidLoop lines (i + 1) fuel

/-- First uid pattern match over the actual lines of the status file;
none when no line matches, in which case the source loop never
terminates, as the uidLoop theorems record. -/
def findUidLines : List String → Option Nat
  | [] => none
  | l :: ls =>
    match searchUid l.toList with
    | some u => some u
    | none => findUidLines ls

/-- Translation of the private process_real_uid method over the process
environment; none models the nonterminating scan of a status file without
a matching uid line. -/
def processRealUid (env : ProcEnv) (pid : Int) : Option Nat :=
  findUidLines (env.statusLines pid)

/-- Translation of the private process_name method: the first line of the
comm file as readline returns it. -/
def processName (env : ProcEnv) (pid : Int) : String := env.comm pid

/-- Translation of the private stale_pid method: existence check first,
then the name comparison, then the real uid comparison; each failing
check returns immediately with its reason string. A none result models
the nonterminating uid scan. -/
def stalePid (env : ProcEnv) (selfPid pid : Int) : Option (Bool × String) :=
  if env.procExists pid = false then some (true, "not running")
  else
    let ourName := processName env selfPid
    let pName := processName env pid
    if pName ≠ ourName then
      some (true, "name mismatch (" ++ pName ++ ", expected " ++ ourName ++ ")")
    else
      match processRealUid env selfPid with
      | none => none
      | some ourUid =>
        match processRealUid env pid with
        | none => none
        | some pUid =>
          if pUid ≠ ourUid then
            some (true,
              "uid mismatch (" ++ natRepr pUid ++ ", expected " ++ natRepr ourUid ++ ")")
          else some (false, "")

/-- Whether the stale check retains a pid: it must return with stale set
to false. -/
def keepPid (env : ProcEnv) (selfPid pid : Int) : Bool :=
  match stalePid env selfPid pid with
  | some (false, _) => true
  | _ => false

/-- Reason string the stale check reports for a pid, empty when retained
or when the check does not return. -/
def staleReason (env : ProcEnv) (selfPid pid : Int) : String :=
  match stalePid env selfPid pid with
  | some (_, r) => r
  | none => ""

/-- Outcome of a sanitize call: the parse error from get_pid_list, a
nonterminating stale check, or success carrying the pruning report in
emission order. -/
inductive SanResult where
  | parseError
  | diverge
  | ok (report : List (Int × String))
deriving DecidableEq

/-- Loop body of sanitize_pid_file over the parsed list: partition into
retained pids in order and a report of pruned pids with reasons, stopping
with none as soon as one stale check fails to return. -/
def sanLoop (env : ProcEnv) (selfPid : Int) :
    List Int → Option (List Int × List (Int × String))
  | [] => some ([], [])
  | p :: ps =>
    match stalePid env selfPid p with
    | none => none
    | some (stale, reason) =>
      match sanLoop env selfPid ps with
      | none => none
      | some (valid, pruned) =>
        if stale then some (valid, (p, reason) :: pruned)
        else some (p :: valid, pruned)

/-- Translation of the sanitize_pid_file method body: read the list, run
the stale check on every entry collecting the survivors in order, then
write the surviving list back unconditionally. -/
def sanitizePidFile (env : ProcEnv) (selfPid : Int) (st : FsState) :
    SanResult × FsState :=
  match getPidList st with
  | none => (.parseError, st)
  | some pids =>
    match sanLoop env selfPid pids with
    | none => (.diverge, st)
    | some (valid, pruned) => (.ok pruned, writePidList st valid)

/-- Observable disposition of the lock handle across one wrapped call:
whether the lock was acquired, whether the unlock call ran, whether the
close call ran, and how many one second sleeps were performed. -/
structure LockTrace where
  acquired : Bool
  released : Bool
  closed : Bool
  sleeps : Nat
deriving DecidableEq

/-- Retry loop of the serialize wrapper: attempt the nonblocking flock,
and on failure increment the retry counter, raising after the third
failed attempt and sleeping one second before every other reattempt. The
remaining argument is three minus the retry counter of the source; the
result is whether the lock was obtained, paired with the number of
sleeps performed. -/
def flockLoop (avail : Nat → Bool) : Nat → Nat → Nat → Bool × Nat
  | _, sleeps, 0 => (false, sleeps)
  | attempt, sleeps, remaining + 1 =>
    if avail attempt then (true, sleeps)
    else if remaining = 0 then (false, sleeps)
    else flockLoop avail (attempt + 1) (sleeps + 1) remaining

/-- Translation of the serialize decorator around one operation. When the
file is absent the inner function runs unlocked. Otherwise the lock is
acquired through the bounded retry loop; on timeout the BlockingIOError
propagates as lockTimeout with the file unchanged. When the inner
function raises, the exception propagates at once: the unlock and close
statements placed after the call are skipped, which the trace records. -/
def serializedOp {α : Type} (avail : Nat → Bool)
    (op : FsState → Except PidErr α × FsState) (st : FsState) :
    LockTrace × Except PidErr α × FsState :=
  match st.file with
  | none => (⟨false, false, false, 0⟩, op st)
  | some _ =>
    match flockLoop avail 0 0 3 with
    | (false, s) => (⟨false, false, false, s⟩, .error .lockTimeout, st)
    | (true, s) =>
      match op st with
      | (.ok v, st') => (⟨true, true, true, s⟩, .ok v, st')
      | (.error e, st') => (⟨true, false, false, s⟩, .error e, st')

/-- Fold of repeated add calls, one per registering process, each made on
the state the previous call left behind. -/
def addAll : List Int → FsState → Except PidErr FsState
  | [], st => .ok st
  | p :: ps, st =>
    match add p st with
    | (.ok _, st') => addAll ps st'
    | (.error e, _) => .error e

/-- Absent backing file. -/
def noFile : FsState := ⟨none⟩

/-- Digit characters are digits. -/
theorem digitChar_isDigit : ∀ d, d < 10 → (digitChar d).isDigit = true := by decide

/-- Digit characters are not whitespace. -/
theorem digitChar_not_ws : ∀ d, d < 10 → (digitChar d).isWhitespace = false := by decide

/-- Digit characters are not the minus sign. -/
theorem digitChar_ne_minus : ∀ d, d < 10 → digitChar d ≠ '-' := by decide

/-- Digit characters are not the plus sign. -/
theorem digitChar_ne_plus : ∀ d, d < 10 → digitChar d ≠ '+' := by decide

/-- Code point arithmetic recovers the value of a digit character. -/
theorem digitChar_toNat : ∀ d, d < 10 → (digitChar d).toNat - 48 = d := by decide

/-- Appending one digit multiplies the accumulated value by ten and adds
the digit value. -/
theorem digitsToNat_append (ds : List Char) (c : Char) :
    digitsToNat (ds ++ [c]) = 10 * digitsToNat ds + (c.toNat - 48) := by
  unfold digitsToNat
  rw [List.foldl_append]
  simp [Nat.mul_comm]

/-- Every character the fueled expansion emits is a digit character. -/
theorem natDigitsAux_mem : ∀ fuel n c, c ∈ natDigitsAux fuel n →
    ∃ d, d < 10 ∧ c = digitChar d := by
  intro fuel
  induction fuel with
  | zero => intro n c h; simp [natDigitsAux] at h
  | succ fuel ih =>
    intro n c h
    unfold natDigitsAux at h
    by_cases hn : n = 0
    · simp [hn] at h
    · rw [if_neg hn] at h
      rcases List.mem_append.mp h with h1 | h2
      · exact ih _ _ h1
      · refine ⟨n % 10, Nat.mod_lt _ (by norm_num), ?_⟩
        simpa using h2

/-- With enough fuel the expansion evaluates back to the number. -/
theorem natDigitsAux_toNat : ∀ fuel n, n ≤ fuel →
    digitsToNat (natDigitsAux fuel n) = n := by
  intro fuel
  induction fuel with
  | zero =>
    intro n hn
    interval_cases n
    simp [natDigitsAux, digitsToNat]
  | succ fuel ih =>
    intro n hn
    unfold natDigitsAux
    by_cases hz : n = 0
    · simp [hz, digitsToNat]
    · rw [if_neg hz, digitsToNat_append,
        ih (n / 10) (by omega), digitChar_toNat (n % 10) (Nat.mod_lt _ (by norm_num))]
      omega

/-- The digit expansion of a natural number evaluates back to it. -/
theorem natDigits_toNat (n : Nat) : digitsToNat (natDigits n) = n := by
  unfold natDigits
  by_cases hz : n = 0
  · simp [hz]; rfl
  · rw [if_neg hz]; exact natDigitsAux_toNat n n le_rfl

/-- The digit expansion is never empty. -/
theorem natDigits_ne_nil (n : Nat) : natDigits n ≠ [] := by
  unfold natDigits
  by_cases hz : n = 0
  · simp [hz]
  · rw [if_neg hz]
    match n, hz with
    | m + 1, _ =>
      unfold natDigitsAux
      simp

/-- Every character of the digit expansion is a digit character. -/
theorem natDigits_mem (n : Nat) (c : Char) (h : c ∈ natDigits n) :
    ∃ d, d < 10 ∧ c = digitChar d := by
  unfold natDigits at h
  by_cases hz : n = 0
  · rw [if_pos hz] at h
    simp at h
    exact ⟨0, by norm_num, h⟩
  · rw [if_neg hz] at h
    exact natDigitsAux_mem n n c h

/-- Dropping with a predicate that fails on every member is the
identity. -/
theorem dropWhile_eq_self_of (p : Char → Bool) :
    ∀ l : List Char, (∀ c ∈ l, p c = false) → l.dropWhile p = l := by
  intro l h
  induction l with
  | nil => rfl
  | cons a l ih =>
    rw [List.dropWhile_cons, h a (List.mem_cons_self a l)]
    simp

/-- Stripping whitespace from a list without boundary whitespace is the
identity. -/
theorem stripWs_eq_self (cs : List Char) (h : ∀ c ∈ cs, c.isWhitespace = false) :
    stripWs cs = cs := by
  unfold stripWs
  rw [dropWhile_eq_self_of _ cs h,
    dropWhile_eq_self_of _ cs.reverse (fun c hc => h c (List.mem_reverse.mp hc)),
    List.reverse_reverse]

/-- Parsing the digit expansion of a natural number recovers it. -/
theorem parseDigits?_natDigits (n : Nat) : parseDigits? (natDigits n) = some n := by
  unfold parseDigits?
  rw [if_neg, if_pos, natDigits_toNat]
  · rw [List.all_eq_true]
    intro c hc
    obtain ⟨d, hd, rfl⟩ := natDigits_mem n c hc
    exact digitChar_isDigit d hd
  · simp [List.isEmpty_iff, natDigits_ne_nil]

/-- Characters of the digit expansion are never whitespace. -/
theorem natDigits_not_ws (n : Nat) : ∀ c ∈ natDigits n, c.isWhitespace = false := by
  intro c hc
  obtain ⟨d, hd, rfl⟩ := natDigits_mem n c hc
  exact digitChar_not_ws d hd

/-- Sign and digit parsing of a bare digit expansion recovers the
number. -/
theorem pyIntCore_natDigits (n : Nat) : pyIntCore (natDigits n) = some (n : Int) := by
  obtain ⟨c, rest, hcr⟩ : ∃ c rest, natDigits n = c :: rest := by
    match h : natDigits n with
    | [] => exact absurd h (natDigits_ne_nil _)
    | c :: rest => exact ⟨c, rest, rfl⟩
  obtain ⟨d, hd, hc⟩ := natDigits_mem _ c (hcr ▸ List.mem_cons_self c rest)
  subst hc
  rw [hcr]
  simp only [pyIntCore]
  rw [if_neg (digitChar_ne_minus d hd), if_neg (digitChar_ne_plus d hd), ← hcr,
    parseDigits?_natDigits]

/-- Reading back the rendering of an integer yields the integer: the
round trip between the writer format call and the reader int call. -/
theorem pyInt?_intRepr (i : Int) : pyInt? (intRepr i) = some i := by
  have hlist : (intRepr i).toList = intChars i := rfl
  unfold pyInt?
  rw [hlist]
  unfold intChars
  by_cases hneg : i < 0
  · rw [if_pos hneg]
    have hs : stripWs ('-' :: natDigits i.natAbs) = '-' :: natDigits i.natAbs := by
      apply stripWs_eq_self
      intro c hc
      rcases List.mem_cons.mp hc with rfl | hmem
      · decide
      · exact natDigits_not_ws _ c hmem
    rw [hs]
    have hv := parseDigits?_natDigits i.natAbs
    simp only [pyIntCore, hv, if_true]
    show some (-((i.natAbs : Nat) : Int)) = some i
    congr 1
    omega
  · rw [if_neg hneg]
    have hs : stripWs (natDigits i.natAbs) = natDigits i.natAbs :=
      stripWs_eq_self _ (natDigits_not_ws _)
    rw [hs, pyIntCore_natDigits]
    congr 1
    omega

/-- Parsing the rendered lines of a pid list recovers the list. -/
theorem parseAll_map_intRepr (l : List Int) : parseAll (l.map intRepr) = some l := by
  induction l with
  | nil => rfl
  | cons p ps ih =>
    simp only [List.map_cons]
    unfold parseAll
    rw [pyInt?_intRepr, ih]

/-- Reading the file immediately after writing a pid list yields that
list: the reader and writer agree line by line. -/
theorem getPidList_writePidList (st : FsState) (l : List Int) :
    getPidList (writePidList st l) = some l := by
  unfold getPidList writePidList
  exact parseAll_map_intRepr l

/-- One unparseable line makes the whole read fail. -/
theorem parseAll_eq_none (lines : List String) (l : String)
    (hl : l ∈ lines) (hp : pyInt? l = none) : parseAll lines = none := by
  induction lines with
  | nil => cases hl
  | cons a rest ih =>
    unfold parseAll
    rcases List.mem_cons.mp hl with rfl | hmem
    · rw [hp]
    · match h : pyInt? a with
      | none => rfl
      | some i => rw [ih hmem]

/-- When every stale check returns, the sanitize loop keeps exactly the
pids passing the check, in their original order, and reports the pruned
pids with their reasons, in their original order. -/
theorem sanLoop_eq (env : ProcEnv) (sp : Int) :
    ∀ pids : List Int, (∀ p ∈ pids, (stalePid env sp p).isSome) →
    sanLoop env sp pids =
      some (pids.filter (keepPid env sp),
        (pids.filter (fun p => ! keepPid env sp p)).map
          (fun p => (p, staleReason env sp p))) := by
  intro pids h
  induction pids with
  | nil => rfl
  | cons p ps ih =>
    have hp : (stalePid env sp p).isSome := h p (List.mem_cons_self p ps)
    obtain ⟨⟨stale, reason⟩, hsp⟩ := Option.isSome_iff_exists.mp hp
    have hrest := ih (fun q hq => h q (List.mem_cons_of_mem p hq))
    cases stale with
    | false =>
      have hk : keepPid env sp p = true := by simp [keepPid, hsp]
      simp [sanLoop, hsp, hrest, hk, List.filter_cons]
    | true =>
      have hk : keepPid env sp p = false := by simp [keepPid, hsp]
      have hr : staleReason env sp p = reason := by simp [staleReason, hsp]
      simp [sanLoop, hsp, hrest, hk, hr, List.filter_cons]

/-- A successful sanitize loop means every stale check returned. -/
theorem sanLoop_isSome (env : ProcEnv) (sp : Int) :
    ∀ pids x, sanLoop env sp pids = some x →
    ∀ p ∈ pids, (stalePid env sp p).isSome := by
  intro pids
  induction pids with
  | nil => intro x _ p hp; cases hp
  | cons q ps ih =>
    intro x h p hp
    simp only [sanLoop] at h
    cases hsq : stalePid env sp q with
    | none => rw [hsq] at h; simp at h
    | some sr =>
      rcases List.mem_cons.mp hp with rfl | hmem
      · simp [hsq]
      · rw [hsq] at h
        cases hsl : sanLoop env sp ps with
        | none => rw [hsl] at h; simp at h
        | some vp => exact ih vp hsl p hmem

/-- When no line of the status file matches the uid pattern, the readline
loop never halts: past the end every read yields the empty string, which
never matches either, so no amount of fuel produces a result. -/
theorem uidLoop_none (lines : List String)
    (h : ∀ l ∈ lines, searchUid l.toList = none) :
    ∀ fuel i, uidLoop lines i fuel = none := by
  intro fuel
  induction fuel with
  | zero => intro i; rfl
  | succ fuel ih =>
    intro i
    have hline : searchUid (readlineAt lines i).toList = none := by
      unfold readlineAt
      rw [List.getD_eq_getElem?_getD]
      cases hsome : lines[i]? with
      | none => rfl
      | some l => exact h l (List.getElem?_mem hsome)
    simp only [uidLoop, hline]
    exact ih (i + 1)

/-- Shifting the read index past a leading line is the same as dropping
that line. -/
theorem uidLoop_shift (l : String) (ls : List String) :
    ∀ fuel i, uidLoop (l :: ls) (i + 1) fuel = uidLoop ls i fuel := by
  intro fuel
  induction fuel with
  | zero => intro i; rfl
  | succ fuel ih =>
    intro i
    have hr : readlineAt (l :: ls) (i + 1) = readlineAt ls i := by
      simp [readlineAt]
    simp only [uidLoop, hr]
    cases searchUid (readlineAt ls i).toList with
    | some u => rfl
    | none => exact ih (i + 1)

/-- When some line matches the uid pattern, the readline loop halts with
that match given enough fuel: the terminating runs of the source loop are
exactly the inputs where findUidLines returns a value. -/
theorem findUidLines_terminates (lines : List String) (u : Nat)
    (h : findUidLines lines = some u) : ∃ fuel, uidLoop lines 0 fuel = some u := by
  induction lines with
  | nil => cases h
  | cons l ls ih =>
    simp only [findUidLines] at h
    cases hs : searchUid l.toList with
    | some v =>
      rw [hs] at h
      refine ⟨1, ?_⟩
      have hr : readlineAt (l :: ls) 0 = l := rfl
      simp only [uidLoop, hr, hs]
      simpa using h
    | none =>
      rw [hs] at h
      obtain ⟨fuel, hf⟩ := ih h
      refine ⟨fuel + 1, ?_⟩
      have hr : readlineAt (l :: ls) 0 = l := rfl
      simp only [uidLoop, hr, hs]
      rw [show (0 : Nat) + 1 = 0 + 1 from rfl, uidLoop_shift]
      exact hf

/-- Closed form of the retry loop started the way the serialize wrapper
starts it: three attempts, one sleep after each failed attempt except the
final one. -/
theorem flockLoop_eval (a : Nat → Bool) :
    flockLoop a 0 0 3 =
      (if a 0 then (true, 0)
       else if a 1 then (true, 1)
       else if a 2 then (true, 2)
       else (false, 2)) := by
  by_cases h0 : a 0 <;> by_cases h1 : a 1 <;> by_cases h2 : a 2 <;>
    simp [flockLoop, h0, h1, h2]

/-- Process environment in which only pid 100 exists, every process shows
the same name, and every status file carries real uid 1000. -/
def envA : ProcEnv :=
  ⟨fun p => p == 100, fun _ => "prog\n", fun _ => ["Uid:\t1000\t1000\t1000\t1000"]⟩

/-- Process environment whose status files lack a uid line entirely. -/
def envNoUid : ProcEnv :=
  ⟨fun _ => true, fun _ => "prog\n", fun _ => ["Name:\tbash"]⟩

/-- Backing file holding one unparseable line. -/
def stBad : FsState := ⟨some ["abc"]⟩

/-- Backing file holding the single pid 200. -/
def stC : FsState := ⟨some ["200"]⟩

/-- Backing file holding the pids 100 and 200. -/
def stD : FsState := ⟨some ["100", "200"]⟩

/-- Backing file holding the pids 100 and 5. -/
def st5 : FsState := ⟨some ["100", "5"]⟩

/-- The add call either leaves the file alone or writes the parsed list
with the caller pid appended. -/
theorem add_snd (c : Int) (st : FsState) :
    (add c st).2 = st ∨
    ∃ pids, getPidList st = some pids ∧ c ∉ pids ∧
      (add c st).2 = writePidList st (pids ++ [c]) := by
  cases hg : getPidList st with
  | none => exact Or.inl (by simp [add, hg])
  | some pids =>
    by_cases hc : c ∈ pids
    · exact Or.inl (by simp [add, hg, hc])
    · exact Or.inr ⟨pids, rfl, hc, by simp [add, hg, hc]⟩

/-- The remove call either leaves the file alone or writes the parsed
list with the first occurrence of the caller pid erased. -/
theorem remove_snd (c : Int) (st : FsState) :
    (remove c st).2 = st ∨
    ∃ pids, getPidList st = some pids ∧
      (remove c st).2 = writePidList st (pids.erase c) := by
  cases hg : getPidList st with
  | none => exact Or.inl (by simp [remove, hg])
  | some pids =>
    by_cases hc : c ∈ pids
    · exact Or.inr ⟨pids, rfl, by simp [remove, hg, hc]⟩
    · exact Or.inl (by simp [remove, hg, hc])

/-- The last call never writes the file. -/
theorem last_snd (st : FsState) : (last st).2 = st := by
  cases hg : getPidList st <;> simp [last, hg]

/-- The sanitize call either leaves the file alone or writes the list of
survivors its loop produced. -/
theorem sanitize_snd (env : ProcEnv) (sp : Int) (st : FsState) :
    (sanitizePidFile env sp st).2 = st ∨
    ∃ pids valid pruned, getPidList st = some pids ∧
      sanLoop env sp pids = some (valid, pruned) ∧
      (sanitizePidFile env sp st).2 = writePidList st valid := by
  cases hg : getPidList st with
  | none => exact Or.inl (by simp [sanitizePidFile, hg])
  | some pids =>
    cases hsl : sanLoop env sp pids with
    | none => exact Or.inl (by simp [sanitizePidFile, hg, hsl])
    | some vp =>
      obtain ⟨valid, pruned⟩ := vp
      exact Or.inr ⟨pids, valid, pruned, rfl, hsl,
        by simp [sanitizePidFile, hg, hsl]⟩

/-- Running the adds of a nonempty batch after a stored prefix leaves the
file holding the prefix followed by the batch, in order. -/
theorem addAll_go : ∀ (pids pre : List Int) (st : FsState),
    getPidList st = some pre → (pre ++ pids).Nodup → pids ≠ [] →
    addAll pids st = .ok ⟨some ((pre ++ pids).map intRepr)⟩ := by
  intro pids
  induction pids with
  | nil => intro pre st _ _ h3; exact absurd rfl h3
  | cons p ps ih =>
    intro pre st h1 h2 _
    have hmem : p ∉ pre := by
      intro hp
      exact (List.nodup_append.mp h2).2.2 hp (List.mem_cons_self p ps)
    have hadd : add p st = (.ok p, writePidList st (pre ++ [p])) := by
      simp only [add, h1]
      rw [if_neg hmem]
    have hstep : addAll (p :: ps) st = addAll ps (writePidList st (pre ++ [p])) := by
      simp only [addAll, hadd]
    by_cases hps : ps = []
    · subst hps
      rw [hstep]
      rfl
    · rw [hstep]
      have h2' : ((pre ++ [p]) ++ ps).Nodup := by
        rw [← List.append_cons]
        exact h2
      have hrec := ih (pre ++ [p]) (writePidList st (pre ++ [p]))
        (getPidList_writePidList st (pre ++ [p])) h2' hps
      rw [hrec, ← List.append_cons]

/-- Claim C1: for any nonempty sequence of distinct pids registered by
repeated add calls from distinct processes, every add appends the caller
pid and persists the whole list; afterwards last returns the most
recently added pid and the backing file holds exactly the sequence in
insertion order, one decimal integer per line. -/
theorem c1_add_round_trip (pids : List Int) (hnd : pids.Nodup) (hne : pids ≠ []) :
    addAll pids noFile = .ok ⟨some (pids.map intRepr)⟩ ∧
    getPidList ⟨some (pids.map intRepr)⟩ = some pids ∧
    (last ⟨some (pids.map intRepr)⟩).1 = .ok pids.getLast? := by
  have h1 := addAll_go pids [] noFile rfl (by simpa using hnd) hne
  have hg : getPidList ⟨some (pids.map intRepr)⟩ = some pids :=
    getPidList_writePidList noFile pids
  refine ⟨by simpa using h1, hg, ?_⟩
  simp [last, hg]

/-- Witness for C1 at the concrete batch 100 then 200. -/
theorem c1_witness :
    addAll [100, 200] noFile = .ok ⟨some (([100, 200] : List Int).map intRepr)⟩ ∧
    getPidList ⟨some (([100, 200] : List Int).map intRepr)⟩ = some [100, 200] ∧
    (last ⟨some (([100, 200] : List Int).map intRepr)⟩).1 =
      .ok ([100, 200] : List Int).getLast? :=
  c1_add_round_trip [100, 200] (by decide) (by decide)

/-- Registry states whose parse, when it succeeds, holds no duplicate
pid. -/
def nodupRegistry (st : FsState) : Prop :=
  ∀ pids, getPidList st = some pids → pids.Nodup

/-- Claim C2: every operation preserves the no-duplicates invariant: when
the stored sequence parses without duplicates, the sequence each
operation persists or leaves in place again has no duplicates. -/
theorem c2_nodup_preserved (st : FsState) (h : nodupRegistry st) (c sp : Int)
    (env : ProcEnv) :
    nodupRegistry (add c st).2 ∧ nodupRegistry (remove c st).2 ∧
    nodupRegistry (sanitizePidFile env sp st).2 ∧ nodupRegistry (last st).2 := by
  refine ⟨?_, ?_, ?_, ?_⟩
  · rcases add_snd c st with heq | ⟨pids, hg, hc, heq⟩
    · rw [heq]; exact h
    · rw [heq]
      intro q hq
      rw [getPidList_writePidList] at hq
      injection hq with hq'
      subst hq'
      rw [List.nodup_append]
      refine ⟨h pids hg, List.nodup_singleton c, ?_⟩
      intro a ha hb
      rw [List.mem_singleton] at hb
      subst hb
      exact hc ha
  · rcases remove_snd c st with heq | ⟨pids, hg, heq⟩
    · rw [heq]; exact h
    · rw [heq]
      intro q hq
      rw [getPidList_writePidList] at hq
      injection hq with hq'
      subst hq'
      exact List.Nodup.sublist (List.erase_sublist c pids) (h pids hg)
  · rcases sanitize_snd env sp st with heq | ⟨pids, valid, pruned, hg, hsl, heq⟩
    · rw [heq]; exact h
    · rw [heq]
      intro q hq
      rw [getPidList_writePidList] at hq
      injection hq with hq'
      subst hq'
      have hterm := sanLoop_isSome env sp pids (valid, pruned) hsl
      have heq2 := sanLoop_eq env sp pids hterm
      rw [hsl] at heq2
      injection heq2 with heq3
      have hvalid : valid = pids.filter (keepPid env sp) := congrArg Prod.fst heq3
      rw [hvalid]
      exact (h pids hg).filter _
  · rw [last_snd]; exact h

/-- Witness for C2 at the absent file. -/
theorem c2_witness :
    nodupRegistry (add 100 noFile).2 ∧ nodupRegistry (remove 100 noFile).2 ∧
    nodupRegistry (sanitizePidFile envA 100 noFile).2 ∧
    nodupRegistry (last noFile).2 :=
  c2_nodup_preserved noFile
    (fun pids hp =>
      (Option.some.inj (show some ([] : List Int) = some pids from hp)) ▸
        List.nodup_nil)
    100 100 envA

/-- Claim C3: the serialize wrapper releases the lock and closes the
handle on the successful path, but when the inner operation raises, the
unlock and close statements after the call are skipped: the error path
leaks the lock, refuting the unconditional release the spec states. -/
theorem c3_lock_leak :
    ((serializedOp (fun _ => true) (add 200) ⟨some ["100"]⟩).1 =
        ⟨true, true, true, 0⟩ ∧
      (serializedOp (fun _ => true) (add 200) ⟨some ["100"]⟩).2.1 = .ok 200) ∧
    ((serializedOp (fun _ => true) (add 100) ⟨some ["100"]⟩).1 =
        ⟨true, false, false, 0⟩ ∧
      (serializedOp (fun _ => true) (add 100) ⟨some ["100"]⟩).2.1 =
        .error .duplicateRegistration) :=
  ⟨⟨rfl, rfl⟩, ⟨rfl, rfl⟩⟩

/-- Counterexample for C4: under full contention the wrapper sleeps only
twice, not three times, before raising the lock timeout. -/
theorem c4_counterexample :
    (serializedOp (fun _ => false) (add 100) ⟨some ["100"]⟩).1.sleeps = 2 ∧
    (serializedOp (fun _ => false) (add 100) ⟨some ["100"]⟩).2.1 =
      (.error .lockTimeout : Except PidErr Int) ∧
    (serializedOp (fun _ => false) (add 100) ⟨some ["100"]⟩).1.sleeps ≠ 3 :=
  ⟨rfl, rfl, by decide⟩

/-- Claim C4 (amended): when the backing file exists and the lock is
contended, the wrapper makes up to three nonblocking attempts with a one
second pause between consecutive attempts, hence at most two pauses and
about two seconds of blocking in total; when all three attempts fail it
raises the lock timeout instead of hanging, leaving the file unchanged. -/
theorem c4_retry_bound {α : Type} (avail : Nat → Bool)
    (op : FsState → Except PidErr α × FsState) (st : FsState)
    (lines : List String) (hf : st.file = some lines)
    (h0 : avail 0 = false) (h1 : avail 1 = false) (h2 : avail 2 = false) :
    serializedOp avail op st = (⟨false, false, false, 2⟩, .error .lockTimeout, st) ∧
    ∀ avail2 : Nat → Bool, (serializedOp avail2 op st).1.sleeps ≤ 2 := by
  constructor
  · have hfl : flockLoop avail 0 0 3 = (false, 2) := by
      rw [flockLoop_eval, h0, h1, h2]
      rfl
    simp [serializedOp, hf, hfl]
  · intro a2
    simp only [serializedOp, hf]
    rw [flockLoop_eval]
    rcases hop : op st with ⟨res, st2⟩
    by_cases g0 : a2 0 <;> by_cases g1 : a2 1 <;> by_cases g2 : a2 2 <;>
      cases res <;> simp [g0, g1, g2, hop]

/-- Witness for C4 at a fully contended lock over an existing file. -/
theorem c4_witness :
    serializedOp (fun _ => false) (remove 100) stC =
      (⟨false, false, false, 2⟩, .error .lockTimeout, stC) :=
  (c4_retry_bound (fun _ => false) (remove 100) stC ["200"] rfl rfl rfl rfl).1

/-- Claim C5: sanitize rewrites the registry to exactly the stored pids
that pass the three-part stale check applied in order, preserving their
original relative order, and reports each pruned pid together with its
reason, in order. -/
theorem c5_sanitize_filter (env : ProcEnv) (sp : Int) (st : FsState)
    (pids : List Int) (hg : getPidList st = some pids)
    (hterm : ∀ p ∈ pids, (stalePid env sp p).isSome) :
    sanitizePidFile env sp st =
      (.ok ((pids.filter (fun p => ! keepPid env sp p)).map
          (fun p => (p, staleReason env sp p))),
        writePidList st (pids.filter (keepPid env sp))) := by
  have hsl := sanLoop_eq env sp pids hterm
  simp [sanitizePidFile, hg, hsl]

/-- Witness for C5: pid 100 is live and retained, pid 5 does not exist
and is pruned with the not running reason. -/
theorem c5_witness :
    sanitizePidFile envA 100 st5 =
      (.ok ((([100, 5] : List Int).filter (fun p => ! keepPid envA 100 p)).map
          (fun p => (p, staleReason envA 100 p))),
        writePidList st5 (([100, 5] : List Int).filter (keepPid envA 100))) :=
  c5_sanitize_filter envA 100 st5 [100, 5] rfl (by decide)

/-- Claim C6: add signals the duplicate error exactly when the caller pid
is already stored, leaves the file unchanged when it fails, and called
twice in succession from the same process succeeds first and fails second
with the duplicate error. -/
theorem c6_duplicate_guard (st : FsState) (c : Int) (pids : List Int)
    (hg : getPidList st = some pids) (hc : c ∉ pids) :
    ((add c st).1 = .error .duplicateRegistration ↔ c ∈ pids) ∧
    add c st = (.ok c, writePidList st (pids ++ [c])) ∧
    ((add c (writePidList st (pids ++ [c]))).1 = .error .duplicateRegistration ↔
      c ∈ pids ++ [c]) ∧
    add c (writePidList st (pids ++ [c])) =
      (.error .duplicateRegistration, writePidList st (pids ++ [c])) := by
  have hok : add c st = (.ok c, writePidList st (pids ++ [c])) := by
    simp only [add, hg]
    rw [if_neg hc]
  have hmem2 : c ∈ pids ++ [c] := by simp
  have hdup : add c (writePidList st (pids ++ [c])) =
      (.error .duplicateRegistration, writePidList st (pids ++ [c])) := by
    simp only [add, getPidList_writePidList]
    rw [if_pos hmem2]
  refine ⟨?_, hok, ?_, hdup⟩
  · rw [hok]
    simp [hc]
  · rw [hdup]
    simp [hmem2]

/-- Witness for C6: adding 100 to a file holding only 200 succeeds, and
adding it again fails with the duplicate error. -/
theorem c6_witness :
    ((add 100 stC).1 = .error .duplicateRegistration ↔
      (100 : Int) ∈ [(200 : Int)]) ∧
    add 100 stC = (.ok 100, writePidList stC ([(200 : Int)] ++ [100])) ∧
    ((add 100 (writePidList stC ([(200 : Int)] ++ [100]))).1 =
        .error .duplicateRegistration ↔ (100 : Int) ∈ [(200 : Int)] ++ [100]) ∧
    add 100 (writePidList stC ([(200 : Int)] ++ [100])) =
      (.error .duplicateRegistration, writePidList stC ([(200 : Int)] ++ [100])) :=
  c6_duplicate_guard stC 100 [200] rfl (by decide)

/-- Claim C7: remove deletes the first occurrence of the caller pid and
persists the rest when present, signals the not-found error leaving the
file unchanged when absent, and called twice in succession from the same
process fails the second time with the not-found error. -/
theorem c7_remove_guard (st : FsState) (c : Int) (pids : List Int)
    (hg : getPidList st = some pids) (hnd : pids.Nodup) (hc : c ∈ pids) :
    remove c st = (.ok (), writePidList st (pids.erase c)) ∧
    ((remove c st).1 = .error .notFound ↔ c ∉ pids) ∧
    remove c (writePidList st (pids.erase c)) =
      (.error .notFound, writePidList st (pids.erase c)) ∧
    ((remove c (writePidList st (pids.erase c))).1 = .error .notFound ↔
      c ∉ pids.erase c) := by
  have hok : remove c st = (.ok (), writePidList st (pids.erase c)) := by
    simp only [remove, hg]
    rw [if_pos hc]
  have hne : c ∉ pids.erase c := by
    intro hmem
    exact ((hnd.mem_erase_iff).mp hmem).1 rfl
  have hfail : remove c (writePidList st (pids.erase c)) =
      (.error .notFound, writePidList st (pids.erase c)) := by
    simp only [remove, getPidList_writePidList]
    rw [if_neg hne]
  refine ⟨hok, ?_, hfail, ?_⟩
  · rw [hok]
    simp [hc]
  · rw [hfail]
    simp [hne]

/-- Witness for C7: removing 100 from a file holding 100 and 200 keeps
200, and removing it again fails with the not-found error. -/
theorem c7_witness :
    remove 100 stD = (.ok (), writePidList stD (([100, 200] : List Int).erase 100)) ∧
    ((remove 100 stD).1 = .error .notFound ↔
      (100 : Int) ∉ ([100, 200] : List Int)) ∧
    remove 100 (writePidList stD (([100, 200] : List Int).erase 100)) =
      (.error .notFound, writePidList stD (([100, 200] : List Int).erase 100)) ∧
    ((remove 100 (writePidList stD (([100, 200] : List Int).erase 100))).1 =
        .error .notFound ↔ (100 : Int) ∉ ([100, 200] : List Int).erase 100) :=
  c7_remove_guard stD 100 [100, 200] rfl (by decide) (by decide)

/-- Counterexample for C8: sanitize invoked while the backing file does
not exist creates it as an empty file instead of leaving it absent. -/
theorem c8_counterexample :
    noFile.file = none ∧
    (sanitizePidFile envA 100 noFile).2.file = some [] ∧
    (sanitizePidFile envA 100 noFile).2.file ≠ none :=
  ⟨rfl, rfl, by decide⟩

/-- Claim C8 (amended): add creates the backing file when absent; remove
and last leave an absent file absent; sanitize also creates the file,
empty, when absent; and no operation ever deletes an existing file — an
empty registry is an empty file. -/
theorem c8_file_creation (c sp : Int) (env : ProcEnv) (st : FsState) :
    (st.file = none →
      (add c st).2.file = some [intRepr c] ∧
      (remove c st).2.file = none ∧
      (last st).2.file = none ∧
      (sanitizePidFile env sp st).2.file = some []) ∧
    (st.file ≠ none →
      (add c st).2.file ≠ none ∧
      (remove c st).2.file ≠ none ∧
      (last st).2.file ≠ none ∧
      (sanitizePidFile env sp st).2.file ≠ none) := by
  constructor
  · intro h
    obtain ⟨f⟩ := st
    have hf : f = none := h
    subst hf
    exact ⟨rfl, rfl, rfl, rfl⟩
  · intro h
    refine ⟨?_, ?_, ?_, ?_⟩
    · rcases add_snd c st with heq | ⟨pids, _, _, heq⟩
      · rw [heq]; exact h
      · rw [heq]; simp [writePidList]
    · rcases remove_snd c st with heq | ⟨pids, _, heq⟩
      · rw [heq]; exact h
      · rw [heq]; simp [writePidList]
    · rw [last_snd]; exact h
    · rcases sanitize_snd env sp st with heq | ⟨pids, valid, pruned, _, _, heq⟩
      · rw [heq]; exact h
      · rw [heq]; simp [writePidList]

/-- Witness for C8 on the absent file. -/
theorem c8_witness :
    (add 100 noFile).2.file = some [intRepr 100] ∧
    (remove 100 noFile).2.file = none ∧
    (last noFile).2.file = none ∧
    (sanitizePidFile envA 100 noFile).2.file = some [] :=
  (c8_file_creation 100 100 envA noFile).1 rfl

/-- Claim C9: on a status file with no matching uid line the real uid
loop of the source never terminates — readline yields the empty string
at end of file forever and the pattern never matches — so the enclosing
sanitize call diverges instead of signalling a lookup failure; the
unreachable uid error branch of the source is dead code. -/
theorem c9_uid_scan_diverges :
    (∀ fuel i, uidLoop ["Name:\tbash"] i fuel = none) ∧
    processRealUid envNoUid 100 = none ∧
    sanitizePidFile envNoUid 100 ⟨some ["100"]⟩ = (.diverge, ⟨some ["100"]⟩) := by
  refine ⟨?_, rfl, rfl⟩
  intro fuel i
  exact uidLoop_none _
    (by
      intro l hl
      rw [List.mem_singleton] at hl
      subst hl
      rfl)
    fuel i

/-- Claim C10: a backing file containing a line that does not parse as a
decimal integer makes every reading operation fail with the parse error
before any write, leaving the file unchanged. -/
theorem c10_parse_failure (st : FsState) (lines : List String) (l : String)
    (hf : st.file = some lines) (hl : l ∈ lines) (hp : pyInt? l = none)
    (c sp : Int) (env : ProcEnv) :
    getPidList st = none ∧
    add c st = (.error .parseError, st) ∧
    remove c st = (.error .parseError, st) ∧
    last st = (.error .parseError, st) ∧
    sanitizePidFile env sp st = (.parseError, st) := by
  have hg : getPidList st = none := by
    simp only [getPidList, hf]
    exact parseAll_eq_none lines l hl hp
  refine ⟨hg, ?_, ?_, ?_, ?_⟩
  · simp [add, hg]
  · simp [remove, hg]
  · simp [last, hg]
  · simp [sanitizePidFile, hg]

/-- Witness for C10 at a file holding one alphabetic line. -/
theorem c10_witness :
    getPidList stBad = none ∧
    add 100 stBad = (.error .parseError, stBad) ∧
    remove 100 stBad = (.error .parseError, stBad) ∧
    last stBad = (.error .parseError, stBad) ∧
    sanitizePidFile envA 100 stBad = (.parseError, stBad) :=
  c10_parse_failure stBad ["abc"] "abc" rfl (List.mem_singleton.mpr rfl) rfl
    100 100 envA

end Pidfile
